import Mathlib

/-!
Verification of the Pub/Sub market-data feed subsystem
(src/containers/paper-trader/pubsub_data_feed.py).

The Python classes `PubSubDataFeed` and `MultiSymbolPubSubManager` are
embedded shallowly: mutable object state becomes a `Feed` / `Manager`
record, each method becomes a state-passing function, and code paths
that may raise a Python exception are modelled in `Except String`.
Prices and timestamps are carried as integers since the code only moves
them around (no float arithmetic influences any claim).
-/

namespace PubSub

/-- A decoded JSON message as seen by `_process_market_data_message`:
a dictionary that may lack any field.  `mtype` is the `type` key. -/
structure RawMessage where
  mtype : Option String := none
  symbol : Option String := none
  timestamp : Option Int := none
  op : Option Int := none
  hi : Option Int := none
  lo : Option Int := none
  cl : Option Int := none
  vol : Option Int := none
  vwap : Option Int := none
  deriving Repr, DecidableEq

/-- A processed bar dictionary, as built at the end of
`_process_market_data_message` (keys datetime/open/high/low/close/volume/vwap). -/
structure BarData where
  dt : Int
  op : Int
  hi : Int
  lo : Int
  cl : Int
  vol : Int
  vwap : Int
  deriving Repr, DecidableEq

/-- `PubSubDataFeed._process_market_data_message`: reject non-`bar` types,
reject messages missing a required field, otherwise build the bar record,
with `vwap` defaulting to `close` when absent. -/
def processMarketDataMessage (m : RawMessage) : Option BarData :=
  if m.mtype ≠ some "bar" then none
  else
    match m.symbol, m.timestamp, m.op, m.hi, m.lo, m.cl, m.vol with
    | some _, some ts, some o, some h, some l, some c, some v =>
        some { dt := ts, op := o, hi := h, lo := l, cl := c, vol := v,
               vwap := m.vwap.getD c }
    | _, _, _, _, _, _, _ => none

/-- How the broker delivery was settled by `_pubsub_callback`:
`message.ack()` or `message.nack()`. -/
inductive Ack where
  | acked
  | nacked
  deriving Repr, DecidableEq

/-- `PubSubDataFeed._pubsub_callback` on one delivery.  `payload` is
`none` when `json.loads` raises (undecodable payload): the handler nacks.
Otherwise: enqueue into the mailbox only when the message's `symbol`
equals the bound symbol, then ack. -/
def pubsubCallback (boundSymbol : String) (message_queue : List RawMessage)
    (payload : Option RawMessage) : List RawMessage × Ack :=
  match payload with
  | none => (message_queue, Ack.nacked)
  | some m =>
      if m.symbol = some boundSymbol then (message_queue ++ [m], Ack.acked)
      else (message_queue, Ack.acked)

/-- `collections.deque` with `maxlen := cap`: appending to a full deque
evicts from the left (drop-oldest). -/
def dequeAppend (cap : Nat) (buf : List α) (x : α) : List α :=
  if cap = 0 then []
  else if buf.length < cap then buf ++ [x]
  else (buf ++ [x]).drop (buf.length + 1 - cap)

/-- The constructor parameters of `PubSubDataFeed` (the `params` tuple),
with their declared defaults. -/
structure FeedParams where
  project_id : String := ""
  subscription_name : String := ""
  symbol : String := ""
  max_buffer_size : Nat := 1000
  reconnect_timeout : Nat := 5
  max_reconnect_attempts : Nat := 10
  deriving Repr, DecidableEq

/-- The mutable state of one `PubSubDataFeed` object.  `fid` models
Python object identity (two distinct feed objects with equal parameters
are different objects); it is bookkeeping for the embedding, not a field
of the source class.  `streaming_pull_future` is `none` before `start()`;
`some b` holds whether the future has been cancelled. -/
structure Feed where
  fid : Nat := 0
  p : FeedParams := {}
  message_queue : List RawMessage := []
  data_buffer : List BarData := []
  last_bar : Option BarData := none
  streaming_pull_future : Option Bool := none
  client_closed : Bool := false
  running : Bool := false
  reconnect_attempts : Nat := 0
  deriving Repr, DecidableEq

/-- One iteration of the `_process_message_queue` drain loop body on a
dequeued message: process it; when a bar results, append it to the ring
buffer (drop-oldest) and update `last_bar`; otherwise leave state as is. -/
def Feed.drainOne (f : Feed) (m : RawMessage) : Feed :=
  match processMarketDataMessage m with
  | some bar =>
      { f with data_buffer := dequeAppend f.p.max_buffer_size f.data_buffer bar,
               last_bar := some bar }
  | none => f

/-- Draining a whole sequence of dequeued messages, oldest first. -/
def Feed.drainAll (f : Feed) (msgs : List RawMessage) : Feed :=
  msgs.foldl Feed.drainOne f

/-- List-level drain used for reasoning: fold the drop-oldest append of
every bar produced by the messages into a buffer. -/
def drainBars (cap : Nat) (buf : List BarData) (bars : List BarData) : List BarData :=
  bars.foldl (dequeAppend cap) buf

/-- The Backtrader lines written by a successful `_load`: datetime, open,
high, low, close, volume.  There is no vwap line. -/
structure LinesOut where
  dtLine : Int
  opLine : Int
  hiLine : Int
  loLine : Int
  clLine : Int
  volLine : Int
  deriving Repr, DecidableEq

/-- `bt.date2num` applied to the bar's datetime; the claims only need
that the datetime line records the bar's timestamp, so it is the
identity on our integer instants. -/
def date2num (dt : Int) : Int := dt

/-- The line assignments performed inside `_load`'s try block. -/
def setLines (bar : BarData) : LinesOut :=
  { dtLine := date2num bar.dt, opLine := bar.op, hiLine := bar.hi,
    loLine := bar.lo, clLine := bar.cl, volLine := bar.vol }

/-- The tri-state result of `_load`: `True` / `None` / `False` in the
Python, i.e. Loaded / Empty / Ended. -/
inductive LoadResult where
  | Loaded (lines : LinesOut)
  | Empty
  | Ended
  deriving Repr, DecidableEq

/-- `PubSubDataFeed._load`, with its possibility of a Python exception
made explicit.  `excFlag` is an oracle for whether the line assignments
inside the try block raise (any runtime error while converting the
popped bar); the `except` handlers turn any such error into `Empty`
while running (`Ended` otherwise) instead of letting it propagate.
The returned feed reflects that `popleft` already happened when a
conversion error follows it. -/
def Feed.load (f : Feed) (excFlag : Bool) : Except String (LoadResult × Feed) :=
  if f.running = false then Except.ok (LoadResult.Ended, f)
  else
    match f.data_buffer with
    | [] => Except.ok (LoadResult.Empty, f)
    | bar :: rest =>
        let fPopped := { f with data_buffer := rest }
        if excFlag then
          Except.ok ((if fPopped.running then LoadResult.Empty else LoadResult.Ended), fPopped)
        else
          Except.ok (LoadResult.Loaded (setLines bar), fPopped)

/-- `PubSubDataFeed.get_buffer_status` (the monitoring snapshot). -/
structure BufferStatus where
  symbol : String
  buffer_size : Nat
  max_buffer_size : Nat
  last_bar_time : Option Int
  running : Bool
  deriving Repr, DecidableEq

def Feed.get_buffer_status (f : Feed) : BufferStatus :=
  { symbol := f.p.symbol, buffer_size := f.data_buffer.length,
    max_buffer_size := f.p.max_buffer_size,
    last_bar_time := f.last_bar.map BarData.dt, running := f.running }

/-- `future.cancel()` as called in `stop()`: defined only on a present
future; calling it on the absent (`None`) future would be a Python
`AttributeError`. -/
def cancelFuture (fut : Option Bool) : Except String (Option Bool) :=
  match fut with
  | none => Except.error "AttributeError: NoneType has no cancel"
  | some _ => Except.ok (some true)

/-- `PubSubDataFeed.stop`: set `running` false; cancel the streaming
pull future only if one exists (the truthiness guard skips a feed whose
`start()` never ran); close the subscriber client. -/
def Feed.stop (f : Feed) : Except String Feed := do
  let f1 := { f with running := false }
  let f2 ←
    match f1.streaming_pull_future with
    | some b => do
        let fut ← cancelFuture (some b)
        pure { f1 with streaming_pull_future := fut }
    | none => pure f1
  pure { f2 with client_closed := true }

/-- `PubSubDataFeed.start`: set running, open the streaming pull future.
(The spawned daemon threads are modelled by the step functions below.) -/
def Feed.start (f : Feed) : Feed :=
  { f with running := true, streaming_pull_future := some false }

/-- One observation of the supervisor loop `_monitor_subscription`:
the bounded wait on the future either times out (still healthy),
returns, or surfaces a subscription error; for an error we record
whether the subsequent re-subscribe attempt inside `_reconnect`
succeeds. -/
inductive MonitorEvent where
  | timeout
  | error (resubOk : Bool)
  deriving Repr, DecidableEq

/-- `PubSubDataFeed._reconnect`: increment the attempt counter, sleep
the fixed backoff, try to re-subscribe; reset the counter to 0 only on
success (a failed subscribe is caught and leaves the counter
incremented). -/
def Feed.reconnect (f : Feed) (resubOk : Bool) : Feed :=
  let f1 := { f with reconnect_attempts := f.reconnect_attempts + 1 }
  if resubOk then
    { f1 with streaming_pull_future := some false, reconnect_attempts := 0 }
  else f1

/-- `time.sleep(self.p.reconnect_timeout)` in `_reconnect`: the backoff
slept before attempt number `attempt`, as a function of that number. -/
def backoffDuration (f : Feed) (attempt : Nat) : Nat :=
  f.p.reconnect_timeout + 0 * attempt

/-- One iteration of the `while self.running` loop in
`_monitor_subscription`.  A feed whose running flag is false is not in
the loop, so events leave it unchanged.  On a subscription error:
re-connect while attempts are below the maximum, otherwise clear the
running flag and leave the loop for good. -/
def Feed.monitorStep (f : Feed) (e : MonitorEvent) : Feed :=
  if f.running = false then f
  else
    match e with
    | MonitorEvent.timeout => f
    | MonitorEvent.error resubOk =>
        if f.running = true ∧ f.reconnect_attempts < f.p.max_reconnect_attempts then
          f.reconnect resubOk
        else { f with running := false }

/-- The supervisor observing a sequence of events in order. -/
def Feed.monitorRun (f : Feed) (es : List MonitorEvent) : Feed :=
  es.foldl Feed.monitorStep f

/-- Python-dict insertion on an association list: replace the value in
place when the key is present (dicts keep the original position),
append otherwise. -/
def dictInsert (k : String) (v : α) : List (String × α) → List (String × α)
  | [] => [(k, v)]
  | (k0, v0) :: rest =>
      if k0 = k then (k, v) :: rest else (k0, v0) :: dictInsert k v rest

def dictLookup (k : String) : List (String × α) → Option α
  | [] => none
  | (k0, v0) :: rest => if k0 = k then some v0 else dictLookup k rest

/-- `MultiSymbolPubSubManager` state: the `data_feeds` dict plus the
list of feeds handed to `cerebro.adddata` (cerebro only accumulates
them as far as this subsystem is concerned).  `next_fid` dispenses the
object identities of newly constructed feeds. -/
structure Manager where
  project_id : String := ""
  data_feeds : List (String × Feed) := []
  cerebro_datas : List Feed := []
  next_fid : Nat := 0
  deriving Repr, DecidableEq

/-- `MultiSymbolPubSubManager.add_market_data_feed`: construct a fresh
`PubSubDataFeed` with the derived subscription name, attach it to
cerebro, and store it in `data_feeds` under the symbol (overwriting any
feed already registered for that symbol). -/
def Manager.add_market_data_feed (m : Manager) (symbol : String)
    (timeframe : String) : Manager × Feed :=
  let subscription_name :=
    "market-data-" ++ symbol.toLower ++ "-" ++ timeframe.toLower
  let data_feed : Feed :=
    { fid := m.next_fid,
      p := { project_id := m.project_id, subscription_name := subscription_name,
             symbol := symbol } }
  ({ m with cerebro_datas := m.cerebro_datas ++ [data_feed],
            data_feeds := dictInsert symbol data_feed m.data_feeds,
            next_fid := m.next_fid + 1 },
   data_feed)

/-- `MultiSymbolPubSubManager.start_all_feeds`: start every feed held in
`data_feeds`. -/
def Manager.start_all_feeds (m : Manager) : Manager :=
  { m with data_feeds := m.data_feeds.map (fun kv => (kv.1, kv.2.start)) }

/-- The `for feed in self.data_feeds.values(): feed.stop()` loop of
`stop_all_feeds`, threading the possibility of a raise through each call. -/
def stopFeeds : List (String × Feed) → Except String (List (String × Feed))
  | [] => Except.ok []
  | kv :: rest => do
      let f ← kv.2.stop
      let rest2 ← stopFeeds rest
      pure ((kv.1, f) :: rest2)

/-- `MultiSymbolPubSubManager.stop_all_feeds`: stop every feed held in
`data_feeds`. -/
def Manager.stop_all_feeds (m : Manager) : Except String Manager := do
  let stopped ← stopFeeds m.data_feeds
  pure { m with data_feeds := stopped }

/-- `MultiSymbolPubSubManager.get_status`: buffer status of every feed
registered in `data_feeds`. -/
def Manager.get_status (m : Manager) : List (String × BufferStatus) :=
  m.data_feeds.map (fun kv => (kv.1, kv.2.get_buffer_status))

/-- A delivery to one feed: `_pubsub_callback` run against the feed's
bound symbol and mailbox. -/
def Feed.deliver (f : Feed) (payload : Option RawMessage) : Feed × Ack :=
  let r := pubsubCallback f.p.symbol f.message_queue payload
  ({ f with message_queue := r.1 }, r.2)

/-- One of the seven required fields of the bar schema is absent from
the decoded message. -/
def requiredFieldMissing (m : RawMessage) : Prop :=
  m.symbol = none ∨ m.timestamp = none ∨ m.op = none ∨ m.hi = none ∨
    m.lo = none ∨ m.cl = none ∨ m.vol = none

instance (m : RawMessage) : Decidable (requiredFieldMissing m) := by
  unfold requiredFieldMissing
  infer_instance

/-- The suffix of the last `cap` elements of a list. -/
def takeLast (cap : Nat) (l : List α) : List α :=
  l.drop (l.length - cap)

theorem takeLast_length_le (cap : Nat) (l : List α) :
    (takeLast cap l).length ≤ cap := by
  simp [takeLast]
  omega

theorem dequeAppend_takeLast (cap : Nat) (ys : List α) (x : α) :
    dequeAppend cap (takeLast cap ys) x = takeLast cap (ys ++ [x]) := by
  rcases Nat.eq_zero_or_pos cap with hc | hc
  · subst hc
    simp [dequeAppend, takeLast]
  · rcases Nat.lt_or_ge ys.length cap with hlt | hge
    · have h0 : ys.length - cap = 0 := by omega
      have h1 : ys.length + 1 - cap = 0 := by omega
      simp [dequeAppend, takeLast, h0, h1, hlt]
      omega
    · have hk : ys.length - cap ≤ ys.length := by omega
      have hlen : (takeLast cap ys).length = cap := by
        simp [takeLast]
        omega
      have hfull : ¬ (takeLast cap ys).length < cap := by omega
      have hsplit : takeLast cap ys ++ [x] = (ys ++ [x]).drop (ys.length - cap) := by
        simp [takeLast, List.drop_append_of_le_length hk]
      simp only [dequeAppend, hlen, hfull, if_neg (by omega : ¬ cap = 0), hsplit]
      rw [List.drop_drop]
      simp [takeLast]
      congr 1
      omega

theorem drainBars_takeLast (cap : Nat) (bars : List BarData) :
    ∀ ys : List BarData,
      drainBars cap (takeLast cap ys) bars = takeLast cap (ys ++ bars) := by
  induction bars with
  | nil => intro ys; simp [drainBars]
  | cons b bs ih =>
      intro ys
      have hstep : dequeAppend cap (takeLast cap ys) b = takeLast cap (ys ++ [b]) :=
        dequeAppend_takeLast cap ys b
      calc drainBars cap (takeLast cap ys) (b :: bs)
          = drainBars cap (dequeAppend cap (takeLast cap ys) b) bs := rfl
        _ = drainBars cap (takeLast cap (ys ++ [b])) bs := by rw [hstep]
        _ = takeLast cap ((ys ++ [b]) ++ bs) := ih (ys ++ [b])
        _ = takeLast cap (ys ++ b :: bs) := by
              rw [List.append_assoc]
              rfl

theorem drainBars_nil_start (cap : Nat) (bars : List BarData) :
    drainBars cap [] bars = takeLast cap bars := by
  have h := drainBars_takeLast cap bars []
  simpa [takeLast] using h

theorem drainAll_buffer (f : Feed) (msgs : List RawMessage) :
    (f.drainAll msgs).data_buffer =
      drainBars f.p.max_buffer_size f.data_buffer
        (msgs.filterMap processMarketDataMessage) ∧
    (f.drainAll msgs).p = f.p := by
  induction msgs generalizing f with
  | nil => exact ⟨rfl, rfl⟩
  | cons m ms ih =>
      have hstep : (f.drainOne m).p = f.p ∧
          (f.drainOne m).data_buffer =
            (match processMarketDataMessage m with
             | some bar => dequeAppend f.p.max_buffer_size f.data_buffer bar
             | none => f.data_buffer) := by
        cases hpm : processMarketDataMessage m with
        | none => simp [Feed.drainOne, hpm]
        | some bar => simp [Feed.drainOne, hpm]
      have hAll : f.drainAll (m :: ms) = (f.drainOne m).drainAll ms := rfl
      rcases ih (f.drainOne m) with ⟨hbuf, hp⟩
      cases hpm : processMarketDataMessage m with
      | none =>
          refine ⟨?_, ?_⟩
          · rw [hAll, hbuf, hstep.1, hstep.2]
            simp [hpm, drainBars]
          · rw [hAll, hp, hstep.1]
      | some bar =>
          refine ⟨?_, ?_⟩
          · rw [hAll, hbuf, hstep.1, hstep.2]
            simp [hpm, drainBars]
          · rw [hAll, hp, hstep.1]

/-- Claim C1: the result of load is fully determined by the running flag
and the buffer — a stopped or failed feed (running flag false) gets
Ended regardless of the buffer; an alive feed with an empty buffer gets
Empty, never Ended; an alive feed with a non-empty buffer gets Loaded of
the oldest buffered bar, with that bar removed from the buffer and the
engine datetime line advanced to the bar's timestamp. -/
theorem load_result_determined (f : Feed) :
    (f.running = false →
      ∀ excFlag, f.load excFlag = Except.ok (LoadResult.Ended, f)) ∧
    (f.running = true → f.data_buffer = [] →
      ∀ excFlag, f.load excFlag = Except.ok (LoadResult.Empty, f)) ∧
    (∀ bar rest, f.running = true → f.data_buffer = bar :: rest →
      f.load false =
        Except.ok (LoadResult.Loaded (setLines bar), { f with data_buffer := rest }) ∧
      (setLines bar).dtLine = date2num bar.dt) := by
  refine ⟨?_, ?_, ?_⟩
  · intro hr excFlag
    simp [Feed.load, hr]
  · intro hr hb excFlag
    simp [Feed.load, hr, hb]
  · intro bar rest hr hb
    constructor
    · simp [Feed.load, hr, hb]
    · rfl

/-- Witness for C1 at a concrete alive feed holding one bar. -/
theorem load_result_determined_witness :
    ({ running := true, data_buffer := [⟨1, 2, 3, 4, 5, 6, 7⟩] } : Feed).load false =
      Except.ok (LoadResult.Loaded (setLines ⟨1, 2, 3, 4, 5, 6, 7⟩),
        { running := true, data_buffer := [] }) :=
  ((load_result_determined
      { running := true, data_buffer := [⟨1, 2, 3, 4, 5, 6, 7⟩] }).2.2
    ⟨1, 2, 3, 4, 5, 6, 7⟩ [] rfl rfl).1

/-- Claim C2: load never raises — for every feed state, buffer content
and per-bar conversion failure, the Except-modelled load returns ok with
one of the three tri-state outcomes; no error escapes to the engine. -/
theorem load_never_raises (f : Feed) (excFlag : Bool) :
    ∃ out : LoadResult × Feed, f.load excFlag = Except.ok out := by
  cases hr : f.running with
  | false => exact ⟨(LoadResult.Ended, f), by simp [Feed.load, hr]⟩
  | true =>
      cases hb : f.data_buffer with
      | nil => exact ⟨(LoadResult.Empty, f), by simp [Feed.load, hr, hb]⟩
      | cons bar rest =>
          cases excFlag with
          | true =>
              exact ⟨(LoadResult.Empty, { f with data_buffer := rest }),
                by simp [Feed.load, hr, hb]⟩
          | false =>
              exact ⟨(LoadResult.Loaded (setLines bar), { f with data_buffer := rest }),
                by simp [Feed.load, hr, hb]⟩

/-- Claim C3: starting from an empty buffer, after draining any message
sequence the ring buffer holds at most the configured capacity, and its
contents are exactly the last `capacity` successfully decoded bars in
FIFO arrival order; the default capacity is 1000. -/
theorem buffer_bounded_and_fifo (f : Feed) (msgs : List RawMessage)
    (hstart : f.data_buffer = []) :
    (f.drainAll msgs).data_buffer.length ≤ f.p.max_buffer_size ∧
    (f.drainAll msgs).data_buffer =
      takeLast f.p.max_buffer_size (msgs.filterMap processMarketDataMessage) ∧
    ({} : FeedParams).max_buffer_size = 1000 := by
  rcases drainAll_buffer f msgs with ⟨hbuf, _⟩
  rw [hbuf, hstart, drainBars_nil_start]
  exact ⟨takeLast_length_le _ _, rfl, rfl⟩

/-- Witness for C3: capacity 3, four valid bars with closes 10,11,12,13;
the retained buffer is the three most recent bars. -/
theorem buffer_bounded_and_fifo_witness :
    (({ p := { max_buffer_size := 3 } } : Feed).drainAll
        [ { mtype := some "bar", symbol := some "A", timestamp := some 1,
            op := some 10, hi := some 10, lo := some 10, cl := some 10, vol := some 1 },
          { mtype := some "bar", symbol := some "A", timestamp := some 2,
            op := some 11, hi := some 11, lo := some 11, cl := some 11, vol := some 1 },
          { mtype := some "bar", symbol := some "A", timestamp := some 3,
            op := some 12, hi := some 12, lo := some 12, cl := some 12, vol := some 1 },
          { mtype := some "bar", symbol := some "A", timestamp := some 4,
            op := some 13, hi := some 13, lo := some 13, cl := some 13, vol := some 1 } ]).data_buffer
      = [ ⟨2, 11, 11, 11, 11, 1, 11⟩, ⟨3, 12, 12, 12, 12, 1, 12⟩,
          ⟨4, 13, 13, 13, 13, 1, 13⟩ ] := by
  have h := (buffer_bounded_and_fifo { p := { max_buffer_size := 3 } }
      [ { mtype := some "bar", symbol := some "A", timestamp := some 1,
          op := some 10, hi := some 10, lo := some 10, cl := some 10, vol := some 1 },
        { mtype := some "bar", symbol := some "A", timestamp := some 2,
          op := some 11, hi := some 11, lo := some 11, cl := some 11, vol := some 1 },
        { mtype := some "bar", symbol := some "A", timestamp := some 3,
          op := some 12, hi := some 12, lo := some 12, cl := some 12, vol := some 1 },
        { mtype := some "bar", symbol := some "A", timestamp := some 4,
          op := some 13, hi := some 13, lo := some 13, cl := some 13, vol := some 1 } ]
      rfl).2.1
  rw [h]
  decide

/-- Counterexample to claim C4: a JSON-decodable message for the bound
symbol that is missing its close field is acknowledged by the callback,
not negatively acknowledged — only undecodable payloads are nacked. -/
theorem missing_close_not_nacked :
    (pubsubCallback "AAPL" []
        (some { mtype := some "bar", symbol := some "AAPL", timestamp := some 1,
                op := some 1, hi := some 1, lo := some 1, vol := some 1 })).2
        = Ack.acked ∧
    ¬ (pubsubCallback "AAPL" []
        (some { mtype := some "bar", symbol := some "AAPL", timestamp := some 1,
                op := some 1, hi := some 1, lo := some 1, vol := some 1 })).2
        = Ack.nacked := by
  constructor
  · rfl
  · decide

/-- Claim C4 as amended: a delivered message that decodes as JSON but is
missing a required field is acknowledged (the nack path fires only when
decoding itself raises), it is dropped at processing so it never reaches
the ring buffer, the feed state is exactly as if the message had never
been delivered to the drain loop, and the buffered count is unaffected. -/
theorem missing_field_dropped (bound : String) (q : List RawMessage)
    (f : Feed) (m : RawMessage) (ms1 ms2 : List RawMessage)
    (hm : requiredFieldMissing m) :
    (pubsubCallback bound q (some m)).2 = Ack.acked ∧
    processMarketDataMessage m = none ∧
    f.drainOne m = f ∧
    f.drainAll (ms1 ++ m :: ms2) = f.drainAll (ms1 ++ ms2) ∧
    (f.drainOne m).data_buffer.length = f.data_buffer.length := by
  have hnone : processMarketDataMessage m = none := by
    obtain ⟨mt, ms, mts, mo, mh, ml, mc, mv, mw⟩ := m
    by_cases ht : mt = some "bar"
    · cases ms <;> cases mts <;> cases mo <;> cases mh <;> cases ml <;>
        cases mc <;> cases mv <;>
        simp_all [processMarketDataMessage, requiredFieldMissing]
    · simp [processMarketDataMessage, ht]
  have hdrop : ∀ g : Feed, g.drainOne m = g := by
    intro g
    simp [Feed.drainOne, hnone]
  refine ⟨?_, hnone, hdrop f, ?_, by rw [hdrop f]⟩
  · cases hms : m.symbol with
    | none => simp [pubsubCallback, hms]
    | some s => by_cases h : s = bound <;> simp [pubsubCallback, hms, h]
  · show List.foldl Feed.drainOne f (ms1 ++ m :: ms2) =
      List.foldl Feed.drainOne f (ms1 ++ ms2)
    rw [List.foldl_append, List.foldl_append]
    show List.foldl Feed.drainOne
        ((List.foldl Feed.drainOne f ms1).drainOne m) ms2 = _
    rw [hdrop]

/-- Witness for C4's amended claim at a concrete message missing close. -/
theorem missing_field_dropped_witness :
    (pubsubCallback "AAPL" []
        (some { mtype := some "bar", symbol := some "AAPL", timestamp := some 1,
                op := some 1, hi := some 1, lo := some 1, vol := some 1 })).2
        = Ack.acked ∧
    ({ running := true } : Feed).drainOne
        { mtype := some "bar", symbol := some "AAPL", timestamp := some 1,
          op := some 1, hi := some 1, lo := some 1, vol := some 1 }
      = { running := true } := by
  have h := missing_field_dropped "AAPL" [] { running := true }
      { mtype := some "bar", symbol := some "AAPL", timestamp := some 1,
        op := some 1, hi := some 1, lo := some 1, vol := some 1 }
      [] [] (by decide)
  exact ⟨h.1, h.2.2.1⟩

/-- Claim C5: a decodable message whose symbol differs from the feed's
bound symbol is acknowledged and dropped silently — the mailbox and the
whole feed state (hence the buffer count) are unchanged. -/
theorem foreign_symbol_acked_and_dropped (f : Feed) (m : RawMessage)
    (hm : m.symbol ≠ some f.p.symbol) :
    f.deliver (some m) = (f, Ack.acked) ∧
    (f.deliver (some m)).1.data_buffer.length = f.data_buffer.length := by
  have h : f.deliver (some m) = (f, Ack.acked) := by
    simp [Feed.deliver, pubsubCallback, hm]
  exact ⟨h, by rw [h]⟩

/-- Witness for C5: an MSFT bar delivered to a feed bound to AAPL. -/
theorem foreign_symbol_acked_and_dropped_witness :
    ({ p := { symbol := "AAPL" } } : Feed).deliver
        (some { mtype := some "bar", symbol := some "MSFT", timestamp := some 1,
                op := some 1, hi := some 1, lo := some 1, cl := some 1,
                vol := some 1 })
      = ({ p := { symbol := "AAPL" } }, Ack.acked) :=
  (foreign_symbol_acked_and_dropped { p := { symbol := "AAPL" } }
      { mtype := some "bar", symbol := some "MSFT", timestamp := some 1,
        op := some 1, hi := some 1, lo := some 1, cl := some 1, vol := some 1 }
      (by decide)).1

theorem monitorStep_stopped (f : Feed) (e : MonitorEvent) (hr : f.running = false) :
    f.monitorStep e = f := by
  simp [Feed.monitorStep, hr]

theorem monitorRun_stopped (f : Feed) (es : List MonitorEvent) (hr : f.running = false) :
    f.monitorRun es = f := by
  induction es with
  | nil => rfl
  | cons e es ih =>
      show (f.monitorStep e).monitorRun es = f
      rw [monitorStep_stopped f e hr]
      exact ih

theorem monitorStep_fail_below (f : Feed) (hr : f.running = true)
    (ha : f.reconnect_attempts < f.p.max_reconnect_attempts) :
    f.monitorStep (MonitorEvent.error false) =
      { f with reconnect_attempts := f.reconnect_attempts + 1 } := by
  simp [Feed.monitorStep, hr, ha, Feed.reconnect]

theorem monitorRun_replicate_fail (k : Nat) :
    ∀ f : Feed, f.running = true →
      f.reconnect_attempts + k ≤ f.p.max_reconnect_attempts →
      f.monitorRun (List.replicate k (MonitorEvent.error false)) =
        { f with reconnect_attempts := f.reconnect_attempts + k } := by
  induction k with
  | zero =>
      intro f hr hle
      show f = _
      simp
  | succ k ih =>
      intro f hr hle
      rw [List.replicate_succ]
      show (f.monitorStep (MonitorEvent.error false)).monitorRun
          (List.replicate k (MonitorEvent.error false)) = _
      rw [monitorStep_fail_below f hr (by omega)]
      rw [ih { f with reconnect_attempts := f.reconnect_attempts + 1 } hr (by simpa using by omega)]
      have harith : f.reconnect_attempts + 1 + k = f.reconnect_attempts + (k + 1) := by
        omega
      simp [harith]

/-- Counterexample to claim C6: with the default maximum of 10, after
exactly 10 consecutive subscription errors with every re-subscribe
failing, the running flag is still true — the feed has not yet failed. -/
theorem ten_errors_still_running :
    (({ running := true } : Feed).monitorRun
        (List.replicate 10 (MonitorEvent.error false))).running = true := by
  decide

/-- Claim C6 as amended: after maxReconnectAttempts+1 consecutive
subscription errors with no intervening successful re-subscribe (the
maximum allowed reconnect attempts all fail and one further error
arrives), the running flag becomes false and the supervisor is inert:
every further event sequence leaves the state unchanged, and load
returns Ended forever. -/
theorem reconnect_exhaustion_terminal (f : Feed) (es : List MonitorEvent)
    (hr : f.running = true) (ha : f.reconnect_attempts = 0) :
    ∃ g : Feed,
      f.monitorRun (List.replicate (f.p.max_reconnect_attempts + 1)
          (MonitorEvent.error false)) = g ∧
      g.running = false ∧
      g.monitorRun es = g ∧
      (∀ excFlag, g.load excFlag = Except.ok (LoadResult.Ended, g)) := by
  have h1 := monitorRun_replicate_fail f.p.max_reconnect_attempts f hr (by omega)
  have hsplit : f.monitorRun (List.replicate (f.p.max_reconnect_attempts + 1)
      (MonitorEvent.error false)) =
      (f.monitorRun (List.replicate f.p.max_reconnect_attempts
          (MonitorEvent.error false))).monitorStep (MonitorEvent.error false) := by
    rw [List.replicate_succ']
    simp [Feed.monitorRun, List.foldl_append]
  have hlast : ({ f with reconnect_attempts := f.reconnect_attempts +
      f.p.max_reconnect_attempts } : Feed).monitorStep (MonitorEvent.error false) =
      { f with reconnect_attempts := f.reconnect_attempts + f.p.max_reconnect_attempts,
               running := false } := by
    have hnlt : ¬ (f.reconnect_attempts + f.p.max_reconnect_attempts <
        f.p.max_reconnect_attempts) := by omega
    simp [Feed.monitorStep, hr, hnlt]
  refine ⟨{ f with reconnect_attempts := f.reconnect_attempts + f.p.max_reconnect_attempts, running := false }, ?_, rfl, ?_, ?_⟩
  · rw [hsplit, h1, hlast]
  · exact monitorRun_stopped _ es rfl
  · intro excFlag
    simp [Feed.load]

/-- Witness for C6's amended claim: the default feed fails after 11
consecutive errors and then loads Ended. -/
theorem reconnect_exhaustion_terminal_witness :
    ∃ g : Feed,
      ({ running := true } : Feed).monitorRun
          (List.replicate (({ running := true } : Feed).p.max_reconnect_attempts + 1)
            (MonitorEvent.error false)) = g ∧
      g.running = false ∧
      g.monitorRun [MonitorEvent.error true] = g ∧
      (∀ excFlag, g.load excFlag = Except.ok (LoadResult.Ended, g)) :=
  reconnect_exhaustion_terminal { running := true } [MonitorEvent.error true] rfl rfl

/-- Claim C7: on a subscription error while running with the attempt
count below the maximum, the supervisor increments the attempt count on
a failed re-subscribe and resets it to 0 on a successful one, the feed
keeps running, the backoff slept is a constant independent of the
attempt number (fixed, not exponential), and the defaults are a 5-second
backoff and 10 attempts. -/
theorem reconnect_below_max_behavior (f : Feed) (resubOk : Bool)
    (hr : f.running = true)
    (ha : f.reconnect_attempts < f.p.max_reconnect_attempts) :
    f.monitorStep (MonitorEvent.error resubOk) =
      (if resubOk
       then { f with streaming_pull_future := some false, reconnect_attempts := 0 }
       else { f with reconnect_attempts := f.reconnect_attempts + 1 }) ∧
    (f.monitorStep (MonitorEvent.error resubOk)).running = true ∧
    (∀ a b : Nat, backoffDuration f a = backoffDuration f b) ∧
    ({} : FeedParams).reconnect_timeout = 5 ∧
    ({} : FeedParams).max_reconnect_attempts = 10 := by
  have hstep : f.monitorStep (MonitorEvent.error resubOk) =
      (if resubOk
       then { f with streaming_pull_future := some false, reconnect_attempts := 0 }
       else { f with reconnect_attempts := f.reconnect_attempts + 1 }) := by
    cases resubOk with
    | false => simpa using monitorStep_fail_below f hr ha
    | true => simp [Feed.monitorStep, hr, ha, Feed.reconnect]
  refine ⟨hstep, ?_, ?_, rfl, rfl⟩
  · rw [hstep]
    cases resubOk <;> simp [hr]
  · intro a b
    simp [backoffDuration]

/-- Witness for C7 at a concrete running feed with zero prior attempts. -/
theorem reconnect_below_max_behavior_witness :
    ({ running := true } : Feed).monitorStep (MonitorEvent.error false) =
      { running := true, reconnect_attempts := 1 } := by
  have h := (reconnect_below_max_behavior { running := true } false rfl
      (by decide)).1
  simpa using h

theorem stop_eq (f : Feed) :
    f.stop = Except.ok
      { f with running := false,
               streaming_pull_future := f.streaming_pull_future.map (fun _ => true),
               client_closed := true } := by
  cases hfut : f.streaming_pull_future with
  | none =>
      simp only [Feed.stop, hfut]
      rfl
  | some b =>
      simp only [Feed.stop, hfut, cancelFuture]
      rfl

/-- Claim C8: stopping is safe from any state — stop never raises (a
feed whose start was never invoked has no streaming-pull future and the
cancel is skipped), stop is idempotent, after stop the running flag is
false and every load returns Ended, and stop_all_feeds succeeds on any
manager leaving every managed feed stopped. -/
theorem stop_safe_idempotent_terminal (f : Feed) (m : Manager) :
    (∃ g : Feed, f.stop = Except.ok g ∧ g.running = false ∧
      g.stop = Except.ok g ∧
      (∀ excFlag, g.load excFlag = Except.ok (LoadResult.Ended, g))) ∧
    (∃ m2 : Manager, m.stop_all_feeds = Except.ok m2 ∧
      ∀ kv ∈ m2.data_feeds, kv.2.running = false) := by
  constructor
  · refine ⟨{ f with running := false, streaming_pull_future := f.streaming_pull_future.map (fun _ => true), client_closed := true }, stop_eq f, rfl, ?_, ?_⟩
    · have h := stop_eq { f with running := false, streaming_pull_future := f.streaming_pull_future.map (fun _ => true), client_closed := true }
      rw [h]
      cases hfut : f.streaming_pull_future with
      | none => simp [hfut]
      | some b => simp [hfut]
    · intro excFlag
      simp [Feed.load]
  · have hlist : ∀ l : List (String × Feed),
        ∃ l2 : List (String × Feed),
          stopFeeds l = Except.ok l2 ∧ ∀ kv ∈ l2, kv.2.running = false := by
      intro l
      induction l with
      | nil => exact ⟨[], rfl, by intro kv h; cases h⟩
      | cons kv0 rest ih =>
          rcases ih with ⟨l2, hmap, hall⟩
          refine ⟨(kv0.1, { kv0.2 with running := false, streaming_pull_future := kv0.2.streaming_pull_future.map (fun _ => true), client_closed := true }) :: l2, ?_, ?_⟩
          · simp only [stopFeeds, stop_eq kv0.2, hmap]
            rfl
          · intro kv h
            rcases List.mem_cons.mp h with h | h
            · rw [h]
            · exact hall kv h
    rcases hlist m.data_feeds with ⟨l2, hmap, hall⟩
    exact ⟨{ m with data_feeds := l2 }, by simp [Manager.stop_all_feeds, hmap], hall⟩

/-- Claim C9: processing stores the vwap field in the buffered bar
record, defaulting it to the message's close when absent, but the pull
interface never exposes it — the lines written by load are identical for
bars differing only in vwap. -/
theorem vwap_buffered_never_exposed (m : RawMessage) (bar : BarData) (v : Int)
    (hm : processMarketDataMessage m = some bar) :
    bar.vwap = m.vwap.getD bar.cl ∧
    setLines { bar with vwap := v } = setLines bar := by
  constructor
  · obtain ⟨mt, ms, mts, mo, mh, ml, mc, mv, mw⟩ := m
    by_cases ht : mt = some "bar"
    · (cases ms <;> cases mts <;> cases mo <;> cases mh <;> cases ml <;>
        cases mc <;> cases mv <;> simp_all [processMarketDataMessage])
      subst hm
      rfl
    · simp [processMarketDataMessage, ht] at hm
  · rfl

/-- Witness for C9: a message without vwap yields a bar whose stored
vwap equals its close, and the emitted lines ignore vwap. -/
theorem vwap_buffered_never_exposed_witness :
    (⟨1, 2, 3, 4, 5, 6, 5⟩ : BarData).vwap =
      ({ mtype := some "bar", symbol := some "A", timestamp := some 1,
         op := some 2, hi := some 3, lo := some 4, cl := some 5,
         vol := some 6 } : RawMessage).vwap.getD
        (⟨1, 2, 3, 4, 5, 6, 5⟩ : BarData).cl ∧
    setLines { (⟨1, 2, 3, 4, 5, 6, 5⟩ : BarData) with vwap := 99 } =
      setLines ⟨1, 2, 3, 4, 5, 6, 5⟩ :=
  vwap_buffered_never_exposed
    { mtype := some "bar", symbol := some "A", timestamp := some 1,
      op := some 2, hi := some 3, lo := some 4, cl := some 5, vol := some 6 }
    ⟨1, 2, 3, 4, 5, 6, 5⟩ 99 rfl

theorem dictLookup_dictInsert (k : String) (v : α) (l : List (String × α)) :
    dictLookup k (dictInsert k v l) = some v := by
  induction l with
  | nil => simp [dictInsert, dictLookup]
  | cons kv0 rest ih =>
      by_cases h : kv0.1 = k
      · simp [dictInsert, dictLookup, h]
      · simp [dictInsert, dictLookup, h, ih]

theorem mem_dictInsert_twice (k : String) (v1 v2 : α) (l : List (String × α))
    (kv : String × α) (hmem : kv ∈ dictInsert k v2 (dictInsert k v1 l)) :
    kv = (k, v2) ∨ kv ∈ l := by
  induction l with
  | nil =>
      simp [dictInsert] at hmem
      exact Or.inl hmem
  | cons kv0 rest ih =>
      by_cases h : kv0.1 = k
      · simp [dictInsert, h] at hmem
        rcases hmem with h2 | h2
        · exact Or.inl h2
        · exact Or.inr (List.mem_cons_of_mem _ h2)
      · simp only [dictInsert, if_neg h] at hmem
        rcases List.mem_cons.mp hmem with h2 | h2
        · exact Or.inr (h2 ▸ List.mem_cons_self _ _)
        · rcases ih h2 with h3 | h3
          · exact Or.inl h3
          · exact Or.inr (List.mem_cons_of_mem _ h3)

/-- Claim C10: registering a second feed under the same symbol silently
replaces the first in the manager's feed map — lookups and the manager's
bulk operations thereafter reach only the second feed — while the first
feed stays attached to cerebro but is unreachable through the manager. -/
theorem duplicate_symbol_feed_replaced (m : Manager) (sym tf1 tf2 : String)
    (m1 m2 : Manager) (f1 f2 : Feed)
    (hfresh : ∀ kv ∈ m.data_feeds, kv.2.fid < m.next_fid)
    (h1 : m.add_market_data_feed sym tf1 = (m1, f1))
    (h2 : m1.add_market_data_feed sym tf2 = (m2, f2)) :
    dictLookup sym m2.data_feeds = some f2 ∧
    f1 ≠ f2 ∧
    f1 ∈ m2.cerebro_datas ∧
    f2 ∈ m2.cerebro_datas ∧
    f1 ∉ m2.data_feeds.map Prod.snd ∧
    m2.start_all_feeds.cerebro_datas = m2.cerebro_datas := by
  have hm1 : m1.data_feeds = dictInsert sym f1 m.data_feeds ∧
      m1.cerebro_datas = m.cerebro_datas ++ [f1] ∧
      m1.next_fid = m.next_fid + 1 ∧ f1.fid = m.next_fid := by
    have := congrArg Prod.fst h1
    have hf := congrArg Prod.snd h1
    simp [Manager.add_market_data_feed] at this hf
    rw [← this, ← hf]
    exact ⟨rfl, rfl, rfl, rfl⟩
  have hm2 : m2.data_feeds = dictInsert sym f2 m1.data_feeds ∧
      m2.cerebro_datas = m1.cerebro_datas ++ [f2] ∧
      f2.fid = m1.next_fid := by
    have := congrArg Prod.fst h2
    have hf := congrArg Prod.snd h2
    simp [Manager.add_market_data_feed] at this hf
    rw [← this, ← hf]
    exact ⟨rfl, rfl, rfl⟩
  have hfid1 : f1.fid = m.next_fid := hm1.2.2.2
  have hfid2 : f2.fid = m.next_fid + 1 := by
    rw [hm2.2.2, hm1.2.2.1]
  have hne : f1 ≠ f2 := by
    intro hEq
    rw [hEq] at hfid1
    omega
  refine ⟨?_, hne, ?_, ?_, ?_, ?_⟩
  · rw [hm2.1, hm1.1]
    exact dictLookup_dictInsert sym f2 _
  · rw [hm2.2.1, hm1.2.1]
    simp
  · rw [hm2.2.1]
    simp
  · intro hmem
    rcases List.mem_map.mp hmem with ⟨kv, hkv, hsnd⟩
    rw [hm2.1, hm1.1] at hkv
    rcases mem_dictInsert_twice sym f1 f2 m.data_feeds kv hkv with h | h
    · rw [h] at hsnd
      exact hne (hsnd ▸ rfl)
    · have := hfresh kv h
      rw [hsnd, hfid1] at this
      omega
  · simp [Manager.start_all_feeds]

/-- Witness for C10 on a fresh manager and the symbol AAPL. -/
theorem duplicate_symbol_feed_replaced_witness :
    dictLookup "AAPL"
        ((({} : Manager).add_market_data_feed "AAPL" "1Min").1.add_market_data_feed
          "AAPL" "1Min").1.data_feeds =
      some ((({} : Manager).add_market_data_feed "AAPL" "1Min").1.add_market_data_feed
          "AAPL" "1Min").2 ∧
    (({} : Manager).add_market_data_feed "AAPL" "1Min").2 ≠
      ((({} : Manager).add_market_data_feed "AAPL" "1Min").1.add_market_data_feed
          "AAPL" "1Min").2 :=
  by
  have h := duplicate_symbol_feed_replaced {} "AAPL" "1Min" "1Min"
      (({} : Manager).add_market_data_feed "AAPL" "1Min").1
      ((({} : Manager).add_market_data_feed "AAPL" "1Min").1.add_market_data_feed
          "AAPL" "1Min").1
      (({} : Manager).add_market_data_feed "AAPL" "1Min").2
      ((({} : Manager).add_market_data_feed "AAPL" "1Min").1.add_market_data_feed
          "AAPL" "1Min").2
      (by intro kv h; cases h) rfl rfl
  exact ⟨h.1, h.2.1⟩

end PubSub



